import Mathlib

/-!
Verification of the go-jmap wire codec, base types and JSON pointer
resolver against its natural-language specification.

The development is a shallow embedding of the Go sources:
* `wire.go` — Invocation triplet codec, Request/Response envelope,
  method dispatch registries (`Jmap.UnmarshalInvocation`,
  `Jmap.MarshalInvocation`, `Jmap.Request.unmarshal`, …);
* `base_types.go` — bounded integers (`Jmap.Int.MarshalJSON`, …),
  identifiers and RFC 3339 dates (`Jmap.UTCDate.UnmarshalJSON`, …);
* `json_ponter.go` — RFC 6901 pointer resolution (`Jmap.GetJSON`);
* the method error decoder (`Jmap.UnmarshalMethodError`).

Byte strings are modelled as `List Char` (all inputs of interest are
ASCII).  The relevant fragment of Go's `encoding/json` package is
embedded as a fuel-indexed JSON parser and a serializer; the fragment
of Go's `time` package used by `UTCDate` is embedded at the level of
absolute seconds plus a zone offset, mirroring `time.Time`.
`encoding/json`'s validate-and-compact pass over `json.RawMessage`
values (including its HTML escaping) is embedded as `Jmap.compactGo`;
quoted strings are escaped by `Jmap.quoteGo`.
-/

namespace Jmap

/-- Errors returned by the embedded Go functions.  `typeError` stands for
the various `encoding/json` syntax and type-mismatch errors whose exact
message is irrelevant to the properties below; the other constructors
are the distinguished errors created by the jmap package itself. -/
inductive GoErr where
  | typeError
  | unknownMethod
  | need3Elements
  | argsMustBeObject
  | outOfRange
  | invalidId
  | missingTypeField
deriving DecidableEq

/-- JSON whitespace skipping, as in Go's `encoding/json` scanner. -/
def jskipWs : List Char → List Char
  | ' ' :: rest => jskipWs rest
  | '\t' :: rest => jskipWs rest
  | '\n' :: rest => jskipWs rest
  | '\r' :: rest => jskipWs rest
  | s => s

/-- Decimal digit test on characters. -/
def isDigitCh (c : Char) : Bool := decide (48 ≤ c.toNat ∧ c.toNat ≤ 57)

/-- Value of a hexadecimal digit character. -/
def hexVal (c : Char) : Nat :=
  if 48 ≤ c.toNat ∧ c.toNat ≤ 57 then c.toNat - 48
  else if 97 ≤ c.toNat ∧ c.toNat ≤ 102 then c.toNat - 87
  else if 65 ≤ c.toNat ∧ c.toNat ≤ 70 then c.toNat - 55
  else 0

/-- Single-character JSON escapes recognised by `encoding/json`. -/
def unescapeCh : Char → Option Char
  | '"' => some '"'
  | '\\' => some '\\'
  | '/' => some '/'
  | 'b' => some '\x08'
  | 'f' => some '\x0c'
  | 'n' => some '\n'
  | 'r' => some '\r'
  | 't' => some '\t'
  | _ => none

/-- JSON values.  Numbers keep their literal text (the wire functions never
need their numeric value); array elements additionally record the exact
input text of the element, mirroring how `encoding/json` extracts
`json.RawMessage` slices. -/
inductive JSONValue where
  | null
  | tru
  | fls
  | num (raw : List Char)
  | str (s : List Char)
  | arr (elems : List (JSONValue × List Char))
  | obj (fields : List (List Char × JSONValue))

/-- Hex-digit test for `\uXXXX` escapes. -/
def isHexCh (c : Char) : Bool :=
  decide ((48 ≤ c.toNat ∧ c.toNat ≤ 57) ∨ (97 ≤ c.toNat ∧ c.toNat ≤ 102) ∨ (65 ≤ c.toNat ∧ c.toNat ≤ 70))

/-- Decoded body of a JSON string literal: consumes up to and including the
closing quote, handling the escape sequences recognised by
`encoding/json`.  `\uXXXX` surrogate pairs are combined and unpaired
surrogates become U+FFFD, as in Go's decoder.  Returns the decoded
content and the remaining input. -/
def parseStringBody : List Char → Option (List Char × List Char)
  | [] => none
  | '"' :: rest => some ([], rest)
  | '\\' :: 'u' :: a :: b :: c :: d :: '\\' :: 'u' :: e :: f :: g :: h :: rest =>
    if isHexCh a && isHexCh b && isHexCh c && isHexCh d &&
       isHexCh e && isHexCh f && isHexCh g && isHexCh h then
      let n1 := hexVal a * 4096 + hexVal b * 256 + hexVal c * 16 + hexVal d
      let n2 := hexVal e * 4096 + hexVal f * 256 + hexVal g * 16 + hexVal h
      if 55296 ≤ n1 ∧ n1 ≤ 56319 then
        if 56320 ≤ n2 ∧ n2 ≤ 57343 then
          (parseStringBody rest).map
            (fun p => (Char.ofNat (65536 + (n1 - 55296) * 1024 + (n2 - 56320)) :: p.1, p.2))
        else
          (parseStringBody ('\\' :: 'u' :: e :: f :: g :: h :: rest)).map
            (fun p => ('\uFFFD' :: p.1, p.2))
      else if 56320 ≤ n1 ∧ n1 ≤ 57343 then
        (parseStringBody ('\\' :: 'u' :: e :: f :: g :: h :: rest)).map
          (fun p => ('\uFFFD' :: p.1, p.2))
      else
        (parseStringBody ('\\' :: 'u' :: e :: f :: g :: h :: rest)).map
          (fun p => (Char.ofNat n1 :: p.1, p.2))
    else none
  | '\\' :: 'u' :: a :: b :: c :: d :: rest =>
    if isHexCh a && isHexCh b && isHexCh c && isHexCh d then
      let n := hexVal a * 4096 + hexVal b * 256 + hexVal c * 16 + hexVal d
      if 55296 ≤ n ∧ n ≤ 57343 then
        (parseStringBody rest).map (fun p => ('\uFFFD' :: p.1, p.2))
      else
        (parseStringBody rest).map (fun p => (Char.ofNat n :: p.1, p.2))
    else none
  | '\\' :: e :: rest =>
    match unescapeCh e with
    | none => none
    | some c => (parseStringBody rest).map (fun p => (c :: p.1, p.2))
  | c :: rest =>
    if c.toNat < 32 then none
    else (parseStringBody rest).map (fun p => (c :: p.1, p.2))

/-- Digit run at the front of the input. -/
def takeDigits : List Char → List Char × List Char
  | [] => ([], [])
  | c :: rest =>
    if isDigitCh c then
      let p := takeDigits rest
      (c :: p.1, p.2)
    else ([], c :: rest)

/-- Literal text of the JSON number at the front of the input, following the
JSON grammar `-? int frac? exp?` with `int = 0 | [1-9][0-9]*`.  Returns
the consumed literal and the remaining input. -/
def parseNumber (s : List Char) : Option (List Char × List Char) :=
  let sign : List Char × List Char :=
    match s with
    | '-' :: rest => (['-'], rest)
    | _ => ([], s)
  match takeDigits sign.2 with
  | ([], _) => none
  | (ds, rest) =>
    if ds.length > 1 ∧ ds.headI = '0' then none
    else
      let frac : Option (List Char × List Char) :=
        match rest with
        | '.' :: r2 =>
          match takeDigits r2 with
          | ([], _) => none
          | (fs, r3) => some ('.' :: fs, r3)
        | _ => some ([], rest)
      match frac with
      | none => none
      | some (fpart, rest2) =>
        let expo : Option (List Char × List Char) :=
          match rest2 with
          | 'e' :: r3 =>
            match r3 with
            | '+' :: r4 =>
              match takeDigits r4 with
              | ([], _) => none
              | (es, r5) => some ('e' :: '+' :: es, r5)
            | '-' :: r4 =>
              match takeDigits r4 with
              | ([], _) => none
              | (es, r5) => some ('e' :: '-' :: es, r5)
            | _ =>
              match takeDigits r3 with
              | ([], _) => none
              | (es, r5) => some ('e' :: es, r5)
          | 'E' :: r3 =>
            match r3 with
            | '+' :: r4 =>
              match takeDigits r4 with
              | ([], _) => none
              | (es, r5) => some ('E' :: '+' :: es, r5)
            | '-' :: r4 =>
              match takeDigits r4 with
              | ([], _) => none
              | (es, r5) => some ('E' :: '-' :: es, r5)
            | _ =>
              match takeDigits r3 with
              | ([], _) => none
              | (es, r5) => some ('E' :: es, r5)
          | _ => some ([], rest2)
        match expo with
        | none => none
        | some (epart, rest3) => some (sign.1 ++ ds ++ fpart ++ epart, rest3)

/-- Parser modes: a JSON value, the elements of an array after `[`, or the
members of an object after an opening brace. -/
inductive PMode where
  | pv
  | pe
  | pm

/-- Parser results for the three modes. -/
inductive PRes where
  | vres (v : JSONValue) (rest : List Char)
  | lres (elems : List (JSONValue × List Char)) (rest : List Char)
  | mres (fields : List (List Char × JSONValue)) (rest : List Char)

/-- Fuel-indexed JSON parser for the grammar accepted by Go's
`encoding/json`.  In mode `pv` it parses one value, in mode `pe` the
(non-empty) element list of an array up to and including `]`, in mode
`pm` the (non-empty) member list of an object up to and including the
closing brace.  The recorded text of an array element is the exact slice
of the input that the element occupied (with surrounding whitespace
trimmed on the left by the pre-skip and absent on the right), which is
what Go stores in a `json.RawMessage`. -/
def parseF : Nat → PMode → List Char → Option PRes
  | 0, _, _ => none
  | fuel + 1, .pv, s =>
    match jskipWs s with
    | 'n' :: 'u' :: 'l' :: 'l' :: rest => some (.vres .null rest)
    | 't' :: 'r' :: 'u' :: 'e' :: rest => some (.vres .tru rest)
    | 'f' :: 'a' :: 'l' :: 's' :: 'e' :: rest => some (.vres .fls rest)
    | '"' :: rest =>
      match parseStringBody rest with
      | some (content, rest2) => some (.vres (.str content) rest2)
      | none => none
    | '[' :: rest =>
      match jskipWs rest with
      | ']' :: rest2 => some (.vres (.arr []) rest2)
      | _ =>
        match parseF fuel .pe rest with
        | some (.lres elems rest2) => some (.vres (.arr elems) rest2)
        | _ => none
    | '\x7b' :: rest =>
      match jskipWs rest with
      | '\x7d' :: rest2 => some (.vres (.obj []) rest2)
      | _ =>
        match parseF fuel .pm rest with
        | some (.mres fields rest2) => some (.vres (.obj fields) rest2)
        | _ => none
    | s' =>
      match parseNumber s' with
      | some (raw, rest) => some (.vres (.num raw) rest)
      | none => none
  | fuel + 1, .pe, s =>
    let sT := jskipWs s
    match parseF fuel .pv sT with
    | some (.vres v rest) =>
      let raw := sT.take (sT.length - rest.length)
      match jskipWs rest with
      | ',' :: r2 =>
        match parseF fuel .pe r2 with
        | some (.lres elems rest2) => some (.lres ((v, raw) :: elems) rest2)
        | _ => none
      | ']' :: r2 => some (.lres [(v, raw)] r2)
      | _ => none
    | _ => none
  | fuel + 1, .pm, s =>
    match jskipWs s with
    | '"' :: rest =>
      match parseStringBody rest with
      | some (key, rest2) =>
        match jskipWs rest2 with
        | ':' :: r3 =>
          match parseF fuel .pv r3 with
          | some (.vres v rest3) =>
            match jskipWs rest3 with
            | ',' :: r4 =>
              match parseF fuel .pm r4 with
              | some (.mres fields rest4) => some (.mres ((key, v) :: fields) rest4)
              | _ => none
            | '\x7d' :: r4 => some (.mres [(key, v)] r4)
            | _ => none
          | _ => none
        | _ => none
      | none => none
    | _ => none

/-- Standard fuel for a complete document: generous enough for any input,
since every two recursion steps consume at least one input character. -/
def docFuel (data : List Char) : Nat := 2 * data.length + 4

/-- Embedding of `json.Unmarshal`'s toplevel scan: one JSON value followed
by whitespace only. -/
def parseDoc (data : List Char) : Option JSONValue :=
  match parseF (docFuel data) .pv data with
  | some (.vres v rest) => if jskipWs rest = [] then some v else none
  | _ => none

/-- Key lookup in a decoded JSON object.  Go's `encoding/json` processes
members in order and later duplicates overwrite earlier ones, so the last
binding wins. -/
def lookupLast (fields : List (List Char × JSONValue)) (key : List Char) : Option JSONValue :=
  fields.foldl (fun acc p => if p.1 == key then some p.2 else acc) none

/-- Embedding of `json.Unmarshal(raw, &s)` for a `string` target: a JSON
string yields its content, JSON `null` leaves the zero value `""`, and
anything else is a type error. -/
def unmarshalStringGo (data : List Char) : Except GoErr (List Char) :=
  match parseDoc data with
  | some (.str s) => .ok s
  | some .null => .ok []
  | _ => .error .typeError

/-- Embedding of `json.Unmarshal(data, &triplet)` for
`triplet : []json.RawMessage` (wire.go line 204): the input must be a
JSON array (whose element slices are retained verbatim) or `null`, which
leaves the nil slice. -/
def parseRawMessageList (data : List Char) : Except GoErr (List (List Char)) :=
  match parseDoc data with
  | some (.arr elems) => .ok (elems.map Prod.snd)
  | some .null => .ok []
  | _ => .error .typeError

/-- Hexadecimal digit character (lower case), for `\u00XX` escapes. -/
def hexDigitCh (n : Nat) : Char := if n < 10 then Char.ofNat (48 + n) else Char.ofNat (87 + n)

/-- Per-character escaping performed by Go's `encoding/json` string encoder
with its default HTML escaping. -/
def escapeCh (c : Char) : List Char :=
  if c = '"' then ['\\', '"']
  else if c = '\\' then ['\\', '\\']
  else if c = '\n' then ['\\', 'n']
  else if c = '\r' then ['\\', 'r']
  else if c = '\t' then ['\\', 't']
  else if c.toNat < 32 then ['\\', 'u', '0', '0', hexDigitCh (c.toNat / 16), hexDigitCh (c.toNat % 16)]
  else if c = '<' ∨ c = '>' ∨ c = '&' then
    ['\\', 'u', '0', '0', hexDigitCh (c.toNat / 16), hexDigitCh (c.toNat % 16)]
  else if c = '\u2028' then ['\\', 'u', '2', '0', '2', '8']
  else if c = '\u2029' then ['\\', 'u', '2', '0', '2', '9']
  else [c]

/-- JSON string literal produced by Go's `encoding/json` for a Go string. -/
def quoteGo (s : List Char) : List Char :=
  '"' :: s.foldr (fun c acc => escapeCh c ++ acc) ['"']

/-- Decimal digits of `n`, least significant first; the first argument is
recursion fuel (`n` itself always suffices). -/
def natToTextRev : Nat → Nat → List Char
  | 0, _ => []
  | fuel + 1, n =>
    if n = 0 then [] else Char.ofNat (48 + n % 10) :: natToTextRev fuel (n / 10)

/-- Decimal rendering of a natural number, as produced by Go's `strconv`
and hence by `json.Marshal` for integer types. -/
def natToText (n : Nat) : List Char :=
  if n = 0 then ['0'] else (natToTextRev n n).reverse

/-- Decimal rendering of an `int64` value. -/
def intToText (i : Int) : List Char :=
  if i < 0 then '-' :: natToText (-i).toNat else natToText i.toNat

/-- Value of a most-significant-first digit string (the accumulator loop of
an integer parser). -/
def digitsToNat (ds : List Char) : Nat :=
  ds.foldl (fun acc c => acc * 10 + (c.toNat - 48)) 0

/-- JSON integer-literal digit check: non-empty and no leading zero except
for the literal `0` itself. -/
def digitsOkJSON : List Char → Bool
  | [] => false
  | [_] => true
  | c :: _ :: _ => c != '0'

/-- Embedding of `json.Unmarshal(data, &v)` for `v : int64`: a bare JSON
integer literal within the `int64` range.  Fractional or exponent parts,
or any other trailing input, make `encoding/json` report an error for an
`int64` target, modelled uniformly as `typeError`. -/
def unmarshalInt64 (data : List Char) : Except GoErr Int :=
  let s := jskipWs data
  let neg : Bool := s.head? == some '-'
  let p := takeDigits (if neg then s.tail else s)
  if digitsOkJSON p.1 = false then .error .typeError
  else if jskipWs p.2 ≠ [] then .error .typeError
  else
    let n := digitsToNat p.1
    if neg then
      if n ≤ 2 ^ 63 then .ok (-(n : Int)) else .error .typeError
    else
      if n ≤ 2 ^ 63 - 1 then .ok (n : Int) else .error .typeError

/-- Embedding of `json.Unmarshal(data, &v)` for `v : uint64`. -/
def unmarshalUint64 (data : List Char) : Except GoErr Nat :=
  let s := jskipWs data
  let p := takeDigits s
  if digitsOkJSON p.1 = false then .error .typeError
  else if jskipWs p.2 ≠ [] then .error .typeError
  else
    let n := digitsToNat p.1
    if n ≤ 2 ^ 64 - 1 then .ok n else .error .typeError

/-- Embedding of `Int.Valid` (base_types.go line 28): the Go expression
`i >= (-2<<52+1) && i <= (2<<52-1)` over `int64`, i.e. the inclusive
range from `-(2^53-1)` to `2^53-1`. -/
def Int.Valid (i : Int) : Bool := decide (-(2 ^ 53) + 1 ≤ i ∧ i ≤ 2 ^ 53 - 1)

/-- Embedding of `Int.MarshalJSON` (base_types.go line 32). -/
def Int.MarshalJSON (i : Int) : Except GoErr (List Char) :=
  if Int.Valid i then .ok (intToText i) else .error .outOfRange

/-- Embedding of `Int.UnmarshalJSON` (base_types.go line 40): decode an
`int64`, then re-validate the range. -/
def Int.UnmarshalJSON (data : List Char) : Except GoErr Int :=
  match unmarshalInt64 data with
  | .error e => .error e
  | .ok v => if Int.Valid v then .ok v else .error .outOfRange

/-- Embedding of `UnsignedInt.Valid` (base_types.go line 55): the Go
expression `i <= (2<<52 - 1)` over `uint64`. -/
def UnsignedInt.Valid (i : Nat) : Bool := decide (i ≤ 2 ^ 53 - 1)

/-- Embedding of `UnsignedInt.MarshalJSON` (base_types.go line 59). -/
def UnsignedInt.MarshalJSON (i : Nat) : Except GoErr (List Char) :=
  if UnsignedInt.Valid i then .ok (natToText i) else .error .outOfRange

/-- Embedding of `UnsignedInt.UnmarshalJSON` (base_types.go line 67). -/
def UnsignedInt.UnmarshalJSON (data : List Char) : Except GoErr Nat :=
  match unmarshalUint64 data with
  | .error e => .error e
  | .ok v => if UnsignedInt.Valid v then .ok v else .error .outOfRange

/-- HTML-sensitive characters (`<`, `>`, `&`, U+2028, U+2029) escaped as
Go's `encoding/json` compactor does with its default HTML escaping;
every other character is copied. -/
def escHTMLCh (c : Char) : List Char :=
  if c = '<' ∨ c = '>' ∨ c = '&' then
    ['\\', 'u', '0', '0', hexDigitCh (c.toNat / 16), hexDigitCh (c.toNat % 16)]
  else if c = '\u2028' then ['\\', 'u', '2', '0', '2', '8']
  else if c = '\u2029' then ['\\', 'u', '2', '0', '2', '9']
  else [c]

/-- Character pass of `encoding/json`'s `compact`: drop whitespace between
tokens (never inside string literals, tracked by the flag), copy escape
sequences inside strings verbatim, and apply the HTML escaping to every
copied character. -/
def compactChars : Bool → List Char → List Char
  | _, [] => []
  | false, c :: rest =>
    if c = ' ' ∨ c = '\t' ∨ c = '\n' ∨ c = '\r' then compactChars false rest
    else if c = '"' then '"' :: compactChars true rest
    else escHTMLCh c ++ compactChars false rest
  | true, '\\' :: c :: rest => '\\' :: c :: compactChars true rest
  | true, c :: rest =>
    if c = '"' then '"' :: compactChars false rest
    else escHTMLCh c ++ compactChars true rest

/-- Embedding of what `json.Marshal` does with `json.RawMessage` bytes (and
with the output of any custom `MarshalJSON`): run the scanner over them,
failing when they are not one complete JSON document, and otherwise emit
them compacted and HTML-escaped. -/
def compactGo (data : List Char) : Option (List Char) :=
  if (parseDoc data).isSome then some (compactChars false data) else none

/-- Embedding of the `MethodError` structure (method error decoder source):
`Type` (the JSON `"type"` member), the out-of-band call id, and the open
property bag holding every other member.  The association list models
Go's `map[string]interface{}`; the inputs below have distinct keys. -/
structure MethodError where
  Type_ : List Char
  CallIDValue : List Char
  Properties : List (List Char × JSONValue)

/-- Embedding of the `Invocation` interface (wire.go line 15).  The envelope
only ever observes an invocation through `Name()`, `CallID()` and the
bytes produced by `json.Marshal` on it, so `generic` models an arbitrary
caller implementation by those observables (`argsJSON` being the
marshalled argument object); `methodErr` is the package's own
`MethodError` implementation. -/
inductive Invocation where
  | generic (name callID argsJSON : List Char)
  | methodErr (e : MethodError)

/-- Embedding of `Name()`; `MethodError.Name()` returns `"error"`. -/
def Invocation.name : Invocation → List Char
  | .generic n _ _ => n
  | .methodErr _ => ['e', 'r', 'r', 'o', 'r']

/-- Embedding of `CallID()`. -/
def Invocation.callID : Invocation → List Char
  | .generic _ c _ => c
  | .methodErr e => e.CallIDValue

/-- Lexicographic (byte-wise) order on keys, used by `encoding/json` when
marshalling a Go map. -/
def keyLt : List Char → List Char → Bool
  | [], [] => false
  | [], _ :: _ => true
  | _ :: _, [] => false
  | a :: as, b :: bs => if a.toNat < b.toNat then true else if b.toNat < a.toNat then false else keyLt as bs

/-- Insertion into a key-sorted association list. -/
def insertSorted (k : List Char) (v : JSONValue) :
    List (List Char × JSONValue) → List (List Char × JSONValue)
  | [] => [(k, v)]
  | (k2, v2) :: rest =>
    if keyLt k k2 then (k, v) :: (k2, v2) :: rest else (k2, v2) :: insertSorted k v rest

/-- Key-sorted copy of an association list (insertion sort). -/
def sortByKey : List (List Char × JSONValue) → List (List Char × JSONValue)
  | [] => []
  | (k, v) :: rest => insertSorted k v (sortByKey rest)

/-- Comma-separated concatenation. -/
def joinComma : List (List Char) → List Char
  | [] => []
  | [x] => x
  | x :: rest => x ++ ',' :: joinComma rest

/-- Serialization of a `JSONValue`. -/
def renderVal : JSONValue → List Char
  | .null => ['n', 'u', 'l', 'l']
  | .tru => ['t', 'r', 'u', 'e']
  | .fls => ['f', 'a', 'l', 's', 'e']
  | .num raw => raw
  | .str s => quoteGo s
  | .arr elems => '[' :: joinComma (elems.attach.map (fun p => renderVal p.1.1)) ++ [']']
  | .obj fields =>
    '\x7b' :: joinComma (fields.attach.map (fun p => quoteGo p.1.1 ++ ':' :: renderVal p.1.2)) ++ ['\x7d']
decreasing_by
  all_goals simp_wf
  all_goals obtain ⟨⟨a, b⟩, hmem⟩ := p
  all_goals have h := List.sizeOf_lt_of_mem hmem
  all_goals simp at h ⊢
  all_goals omega

/-- Marshalling of a Go `map[string]interface{}`: members in ascending key
order. -/
def renderMapGo (fields : List (List Char × JSONValue)) : List Char :=
  '\x7b' :: joinComma ((sortByKey fields).map (fun p => quoteGo p.1 ++ ':' :: renderVal p.2)) ++ ['\x7d']

/-- Embedding of `MethodError.MarshalJSON`: the property bag plus the
`"type"` member (fixed field overwriting any bag entry), marshalled as a
Go map. -/
def MethodError.marshalJSON (e : MethodError) : List Char :=
  renderMapGo ((e.Properties.filter (fun p => p.1 ≠ ['t', 'y', 'p', 'e'])) ++ [(['t', 'y', 'p', 'e'], .str e.Type_)])

/-- Embedding of `json.Marshal(call)` for an `Invocation` value (wire.go
line 55): a `generic` invocation yields its observable marshalled bytes
after `encoding/json`'s validate-and-compact pass over the custom
marshaller's output; a `MethodError` yields its map marshalling. -/
def Invocation.marshalJSON : Invocation → Except GoErr (List Char)
  | .generic _ _ argsJSON =>
    match compactGo argsJSON with
    | some b => .ok b
    | none => .error .typeError
  | .methodErr e => .ok e.marshalJSON

/-- Layout of the triplet produced by
`json.Marshal([3]interface{}{methodName, args, callId})` (wire.go line
239): the strings quoted and the already validated-and-compacted
argument bytes in the middle. -/
def mkTriplet (methodName : List Char) (args : List Char) (callId : List Char) : List Char :=
  '[' :: quoteGo methodName ++ ',' :: args ++ ',' :: quoteGo callId ++ [']']

/-- Embedding of `MarshalInvocation` (wire.go line 235).  The Go code reads
`args[0]` with no length guard, so the embedding is partial: `none`
models the index-out-of-range panic on empty `args`.  For brace-headed
`args` the final `json.Marshal` call runs the scanner over the
`json.RawMessage` bytes, so invalid argument bytes produce an error and
the emitted triplet carries them compacted. -/
def MarshalInvocation (methodName callId args : List Char) : Option (Except GoErr (List Char)) :=
  match args with
  | [] => none
  | c :: _ =>
    if c ≠ '\x7b' then some (.error .argsMustBeObject)
    else
      match compactGo args with
      | some args2 => some (.ok (mkTriplet methodName args2 callId))
      | none => some (.error .typeError)

/-- Embedding of `UnmarshalInvocation` (wire.go line 202): unmarshal into a
`[]json.RawMessage`, require exactly 3 elements, decode elements 0 and 2
as strings, keep element 1 verbatim and require its first byte to be an
opening brace.  As in `MarshalInvocation`, `none` models the
out-of-range panic of `args[0]` on an empty raw slice (unreachable for
parser-produced slices). -/
def UnmarshalInvocation (data : List Char) :
    Option (Except GoErr (List Char × List Char × List Char)) :=
  match parseRawMessageList data with
  | .error e => some (.error e)
  | .ok triplet =>
    match triplet with
    | [t0, t1, t2] =>
      match unmarshalStringGo t0 with
      | .error e => some (.error e)
      | .ok methodName =>
        match unmarshalStringGo t2 with
        | .error e => some (.error e)
        | .ok callId =>
          match t1 with
          | [] => none
          | c :: _ =>
            if c ≠ '\x7b' then some (.error .argsMustBeObject)
            else some (.ok (methodName, callId, t1))
    | _ => some (.error .need3Elements)

/-- Embedding of `FuncInvocationUnmarshal` (wire.go line 242). -/
def FuncInvocationUnmarshal : Type :=
  List Char → List Char → List Char → Except GoErr Invocation

/-- Embedding of the caller-supplied dispatch registry
`map[string]FuncInvocationUnmarshal`; keys are unique in a Go map, so an
association list with first-match lookup is a faithful model. -/
def Registry : Type := List (List Char × FuncInvocationUnmarshal)

/-- Map lookup in a registry. -/
def lookupReg (reg : Registry) (key : List Char) : Option FuncInvocationUnmarshal :=
  match reg with
  | [] => none
  | p :: rest => if p.1 == key then some p.2 else lookupReg rest key

/-- Embedding of `MethodError.UnmarshalJSONArgs` (method error decoder
source): unmarshal the argument object into the struct (setting `Type`
from the `"type"` member) and into the property bag, fail if `"type"` is
absent from the bag, then delete `"type"` from the bag.  A `"type"`
member that is JSON `null` leaves the zero `Type` but does count as
present in the bag, as in Go.  The struct-field pass would also match
the untagged `CallIDValue`/`Properties` field names, which no input
below contains. -/
def MethodError.unmarshalJSONArgs (callId : List Char) (args : List Char) :
    Except GoErr MethodError :=
  match parseDoc args with
  | some (.obj fields) =>
    match lookupLast fields ['t', 'y', 'p', 'e'] with
    | none => .error .missingTypeField
    | some (.str t) =>
      .ok ⟨t, callId, fields.filter (fun p => p.1 ≠ ['t', 'y', 'p', 'e'])⟩
    | some .null =>
      .ok ⟨[], callId, fields.filter (fun p => p.1 ≠ ['t', 'y', 'p', 'e'])⟩
    | some _ => .error .typeError
  | some .null => .error .missingTypeField
  | _ => .error .typeError

/-- Embedding of `UnmarshalMethodError` (method error decoder source):
builds a `MethodError` carrying the call id and decodes the arguments;
the method name argument is unused by the Go function. -/
def UnmarshalMethodError : FuncInvocationUnmarshal := fun _ callId args =>
  match MethodError.unmarshalJSONArgs callId args with
  | .error e => .error e
  | .ok e => .ok (.methodErr e)

/-- Embedding of `ID.Valid` (base_types.go line 166): between 1 and 255
characters from the URL-safe base64 alphabet. -/
def validID (s : List Char) : Bool :=
  decide (1 ≤ s.length ∧ s.length ≤ 255) &&
    s.all (fun c => decide ((65 ≤ c.toNat ∧ c.toNat ≤ 90) ∨ (97 ≤ c.toNat ∧ c.toNat ≤ 122) ∨
      (48 ≤ c.toNat ∧ c.toNat ≤ 57) ∨ c.toNat = 45 ∨ c.toNat = 95))

/-- Embedding of the `Request` structure (wire.go line 20).  `Using` is
`Option`-wrapped to distinguish a nil Go slice (marshalled as `null`)
from an empty one; `CreatedIDs` is an association list modelling the Go
map (`omitempty` drops both nil and empty maps, so no `Option` is
needed). -/
structure Request where
  Using : Option (List (List Char))
  Calls : List Invocation
  CreatedIDs : List (List Char × List Char)

/-- Embedding of the `Response` structure (wire.go line 107). -/
structure Response where
  Responses : List Invocation
  CreatedIDs : List (List Char × List Char)
  SessionState : List Char

/-- Intermediate result of rawRequest deserialization (wire.go line 42). -/
structure RawRequest where
  Using : Option (List (List Char))
  CreatedIDs : List (List Char × List Char)
  RawCalls : List (List Char)

/-- Intermediate result of rawResponse deserialization (wire.go line
125). -/
structure RawResponse where
  CreatedIDs : List (List Char × List Char)
  SessionState : List Char
  RawResponses : List (List Char)

/-- Element loop of the `[]string` decoding. -/
def decodeStringElems : List (JSONValue × List Char) → Except GoErr (List (List Char))
  | [] => .ok []
  | (v, _) :: rest =>
    match v with
    | .str s =>
      match decodeStringElems rest with
      | .error e => .error e
      | .ok l => .ok (s :: l)
    | .null =>
      match decodeStringElems rest with
      | .error e => .error e
      | .ok l => .ok ([] :: l)
    | _ => .error .typeError

/-- Field decoding for a `[]string` target: `null` or a missing member
leaves the nil slice, an array requires every element to be a string
(`null` elements leave `""`). -/
def decodeStringSlice : Option JSONValue → Except GoErr (Option (List (List Char)))
  | none => .ok none
  | some .null => .ok none
  | some (.arr elems) =>
    match decodeStringElems elems with
    | .error e => .error e
    | .ok l => .ok (some l)
  | some _ => .error .typeError

/-- Member loop of the `createdIds` decoding. -/
def decodeCreatedPairs : List (List Char × JSONValue) → Except GoErr (List (List Char × List Char))
  | [] => .ok []
  | (k, v) :: rest =>
    match v with
    | .str s =>
      if validID s then
        match decodeCreatedPairs rest with
        | .error e => .error e
        | .ok l => .ok ((k, s) :: l)
      else .error .invalidId
    | .null => .error .invalidId
    | _ => .error .typeError

/-- Field decoding for the `map[ID]ID` target `createdIds`: keys are read
by plain string conversion (the `ID` type implements no
`TextUnmarshaler`), values go through `ID.UnmarshalJSON` and are
validated. -/
def decodeCreatedIDs : Option JSONValue → Except GoErr (List (List Char × List Char))
  | none => .ok []
  | some .null => .ok []
  | some (.obj fields) => decodeCreatedPairs fields
  | some _ => .error .typeError

/-- Field decoding for a `[]json.RawMessage` target inside a struct. -/
def decodeRawSlice : Option JSONValue → Except GoErr (List (List Char))
  | none => .ok []
  | some .null => .ok []
  | some (.arr elems) => .ok (elems.map Prod.snd)
  | some _ => .error .typeError

/-- Field decoding for a `string` target (`sessionState`). -/
def decodeStringField : Option JSONValue → Except GoErr (List Char)
  | none => .ok []
  | some .null => .ok []
  | some (.str s) => .ok s
  | some _ => .error .typeError

/-- Embedding of `json.Unmarshal(data, &raw)` for `raw : rawRequest`
(wire.go line 75): the document must be an object (or `null`, which
leaves the zero value); unknown members are ignored. -/
def parseRawRequest (data : List Char) : Except GoErr RawRequest :=
  match parseDoc data with
  | some (.obj fields) =>
    match decodeStringSlice (lookupLast fields ['u', 's', 'i', 'n', 'g']) with
    | .error e => .error e
    | .ok u =>
      match decodeCreatedIDs (lookupLast fields ("createdIds".toList)) with
      | .error e => .error e
      | .ok c =>
        match decodeRawSlice (lookupLast fields ("methodCalls".toList)) with
        | .error e => .error e
        | .ok m => .ok ⟨u, c, m⟩
  | some .null => .ok ⟨none, [], []⟩
  | _ => .error .typeError

/-- Embedding of `json.Unmarshal(data, &raw)` for `raw : rawResponse`
(wire.go line 155). -/
def parseRawResponse (data : List Char) : Except GoErr RawResponse :=
  match parseDoc data with
  | some (.obj fields) =>
    match decodeCreatedIDs (lookupLast fields ("createdIds".toList)) with
    | .error e => .error e
    | .ok c =>
      match decodeStringField (lookupLast fields ("sessionState".toList)) with
      | .error e => .error e
      | .ok s =>
        match decodeRawSlice (lookupLast fields ("methodResponses".toList)) with
        | .error e => .error e
        | .ok m => .ok ⟨c, s, m⟩
  | some .null => .ok ⟨[], [], []⟩
  | _ => .error .typeError

/-- The `methodCalls` loop of `Request.MarshalJSON` (wire.go lines 54-65):
marshal each invocation's arguments, then pack the triplet.  `none`
propagates the modelled panic of `MarshalInvocation` (unreachable here,
since `json.Marshal` never returns empty bytes). -/
def marshalRawCalls : List Invocation → Option (Except GoErr (List (List Char)))
  | [] => some (.ok [])
  | call :: rest =>
    match call.marshalJSON with
    | .error e => some (.error e)
    | .ok argsBlob =>
      match MarshalInvocation call.name call.callID argsBlob with
      | none => none
      | some (.error e) => some (.error e)
      | some (.ok blob) =>
        match marshalRawCalls rest with
        | none => none
        | some (.error e) => some (.error e)
        | some (.ok blobs) => some (.ok (blob :: blobs))

/-- Marshalling of the `using` field: a nil slice becomes `null`. -/
def marshalUsing : Option (List (List Char)) → List Char
  | none => ['n', 'u', 'l', 'l']
  | some l => '[' :: joinComma (l.map quoteGo) ++ [']']

/-- Member loop of the `createdIds` marshalling. -/
def renderCreatedPairs : List (List Char × JSONValue) → Except GoErr (List (List Char))
  | [] => .ok []
  | (k, v) :: rest =>
    match v with
    | .str s =>
      if validID k && validID s then
        match renderCreatedPairs rest with
        | .error e => .error e
        | .ok l => .ok ((quoteGo k ++ ':' :: quoteGo s) :: l)
      else .error .invalidId
    | _ => .error .invalidId

/-- Sorted-key marshalling of the `map[ID]ID` field, with `ID.MarshalText`
validation of keys and values. -/
def marshalCreatedIDs (m : List (List Char × List Char)) : Except GoErr (List Char) :=
  match renderCreatedPairs (sortByKey (m.map (fun p => (p.1, JSONValue.str p.2)))) with
  | .error e => .error e
  | .ok parts => .ok ('\x7b' :: joinComma parts ++ ['\x7d'])

/-- Embedding of `Request.MarshalJSON` (wire.go line 48): emit `using`, the
`createdIds` map when non-empty (`omitempty`), and the packed
`methodCalls`, in the declared field order of `rawRequest`. -/
def Request.marshalJSON (r : Request) : Option (Except GoErr (List Char)) :=
  match marshalRawCalls r.Calls with
  | none => none
  | some (.error e) => some (.error e)
  | some (.ok rawCalls) =>
    match (if r.CreatedIDs.isEmpty then .ok [] else
      match marshalCreatedIDs r.CreatedIDs with
      | .error e => .error e
      | .ok blob => .ok (",\"createdIds\":".toList ++ blob) : Except GoErr (List Char)) with
    | .error e => some (.error e)
    | .ok cid =>
      some (.ok ('\x7b' :: "\"using\":".toList ++ marshalUsing r.Using ++ cid ++
        ",\"methodCalls\":".toList ++ '[' :: joinComma rawCalls ++ [']'] ++ ['\x7d']))

/-- The decode loop of `Request.Unmarshal` (wire.go lines 80-97): unpack
each triplet, look the method up in the registry, fail with the unknown
method error if absent, and run the registered constructor. -/
def unmarshalCallsAux (ctors : Registry) : List (List Char) → Option (Except GoErr (List Invocation))
  | [] => some (.ok [])
  | rawCall :: rest =>
    match UnmarshalInvocation rawCall with
    | none => none
    | some (.error e) => some (.error e)
    | some (.ok (method, callId, args)) =>
      match lookupReg ctors method with
      | none => some (.error .unknownMethod)
      | some ctor =>
        match ctor method callId args with
        | .error e => .error e |> some
        | .ok invocation =>
          match unmarshalCallsAux ctors rest with
          | none => none
          | some (.error e) => some (.error e)
          | some (.ok invs) => some (.ok (invocation :: invs))

/-- Embedding of `Request.Unmarshal` (wire.go line 73).  The method mutates
its receiver, so the embedding returns the new receiver value together
with the returned error; every error path leaves the receiver argument
untouched, exactly as the Go code assigns to `r` only after the loop.
`none` models the (unreachable) triplet panic. -/
def Request.unmarshal (r : Request) (data : List Char) (invocationCtors : Registry) :
    Option (Request × Option GoErr) :=
  match parseRawRequest data with
  | .error e => some (r, some e)
  | .ok raw =>
    match unmarshalCallsAux invocationCtors raw.RawCalls with
    | none => none
    | some (.error e) => some (r, some e)
    | some (.ok calls) => some (⟨raw.Using, calls, raw.CreatedIDs⟩, none)

/-- The decode loop of `Response.Unmarshal` (wire.go lines 160-185): as for
requests, but the reserved name `"error"` is dispatched to
`UnmarshalMethodError` without consulting (or changing) the
caller-supplied registry. -/
def unmarshalResponsesAux (ctors : Registry) : List (List Char) → Option (Except GoErr (List Invocation))
  | [] => some (.ok [])
  | rawResp :: rest =>
    match UnmarshalInvocation rawResp with
    | none => none
    | some (.error e) => some (.error e)
    | some (.ok (method, callId, args)) =>
      match (if method == "error".toList then .ok UnmarshalMethodError else
        match lookupReg ctors method with
        | some f => .ok f
        | none => .error GoErr.unknownMethod : Except GoErr FuncInvocationUnmarshal) with
      | .error e => some (.error e)
      | .ok ctor =>
        match ctor method callId args with
        | .error e => some (.error e)
        | .ok invocation =>
          match unmarshalResponsesAux ctors rest with
          | none => none
          | some (.error e) => some (.error e)
          | some (.ok invs) => some (.ok (invocation :: invs))

/-- Embedding of `Response.Unmarshal` (wire.go line 153).  The Go registry
is a reference (map) that the method could in principle write to; the
embedding therefore threads it through and returns it alongside the
receiver, so that "the registry is never mutated" is an assertion about
this function's result rather than a typing triviality. -/
def Response.unmarshal (r : Response) (data : List Char) (invocationCtors : Registry) :
    Option ((Response × Registry) × Option GoErr) :=
  match parseRawResponse data with
  | .error e => some ((r, invocationCtors), some e)
  | .ok raw =>
    match unmarshalResponsesAux invocationCtors raw.RawResponses with
    | none => none
    | some (.error e) => some ((r, invocationCtors), some e)
    | some (.ok resps) =>
      some ((⟨resps, raw.CreatedIDs, raw.SessionState⟩, invocationCtors), none)

/-- Embedding of Go's `time.Time` as used by the `Date`/`UTCDate` types: an
absolute instant in seconds since the Unix epoch plus the attached zone
offset in seconds east of UTC (sub-second precision is irrelevant to the
claims and dropped, as `time.RFC3339` formatting drops it too). -/
structure GoTime where
  abs : Int
  offset : Int
deriving DecidableEq

/-- Days from the civil epoch 1970-01-01 (Howard Hinnant's algorithm, the
same date arithmetic Go's `time` package performs). -/
def daysFromCivil (y m d : Int) : Int :=
  let y2 := if m ≤ 2 then y - 1 else y
  let era := (if 0 ≤ y2 then y2 else y2 - 399) / 400
  let yoe := y2 - era * 400
  let mp := (m + 9) % 12
  let doy := (153 * mp + 2) / 5 + d - 1
  let doe := yoe * 365 + yoe / 4 - yoe / 100 + doy
  era * 146097 + doe - 719468

/-- Civil date from a day count since 1970-01-01 (inverse of
`daysFromCivil`). -/
def civilFromDays (z0 : Int) : Int × Int × Int :=
  let z := z0 + 719468
  let era := (if 0 ≤ z then z else z - 146096) / 146097
  let doe := z - era * 146097
  let yoe := (doe - doe / 1460 + doe / 36524 - doe / 146096) / 365
  let y := yoe + era * 400
  let doy := doe - (365 * yoe + yoe / 4 - yoe / 100)
  let mp := (5 * doy + 2) / 153
  let d := doy - (153 * mp + 2) / 5 + 1
  let m := mp + (if mp < 10 then 3 else -9)
  (if m ≤ 2 then y + 1 else y, m, d)

/-- Leap year test (proleptic Gregorian). -/
def isLeapYear (y : Nat) : Bool := decide (y % 4 = 0 ∧ (y % 100 ≠ 0 ∨ y % 400 = 0))

/-- Days in a month. -/
def daysInMonth (y m : Nat) : Nat :=
  if m = 2 then (if isLeapYear y then 29 else 28)
  else if m = 4 ∨ m = 6 ∨ m = 9 ∨ m = 11 then 30
  else 31

/-- Fixed-width two-digit read. -/
def read2 : List Char → Option (Nat × List Char)
  | a :: b :: rest =>
    if isDigitCh a && isDigitCh b then some ((a.toNat - 48) * 10 + (b.toNat - 48), rest)
    else none
  | _ => none

/-- Fixed-width four-digit read. -/
def read4 : List Char → Option (Nat × List Char)
  | a :: b :: c :: d :: rest =>
    if isDigitCh a && isDigitCh b && isDigitCh c && isDigitCh d then
      some (((a.toNat - 48) * 1000 + (b.toNat - 48) * 100 + (c.toNat - 48) * 10 + (d.toNat - 48)), rest)
    else none
  | _ => none

/-- Zone suffix of an RFC 3339 timestamp: `Z` or `±hh:mm`, which must end
the input.  Returns the offset in seconds east of UTC. -/
def parseZone : List Char → Option Int
  | ['Z'] => some 0
  | '+' :: rest =>
    match read2 rest with
    | some (hh, ':' :: rest2) =>
      match read2 rest2 with
      | some (mm, []) => if hh ≤ 23 ∧ mm ≤ 59 then some ((hh * 3600 + mm * 60 : Nat) : Int) else none
      | _ => none
    | _ => none
  | '-' :: rest =>
    match read2 rest with
    | some (hh, ':' :: rest2) =>
      match read2 rest2 with
      | some (mm, []) => if hh ≤ 23 ∧ mm ≤ 59 then some (-((hh * 3600 + mm * 60 : Nat) : Int)) else none
      | _ => none
    | _ => none
  | _ => none

/-- Optional fractional-second part (accepted and discarded by `time.Parse`
even though the RFC 3339 layout carries none). -/
def skipFraction (s : List Char) : Option (List Char) :=
  match s with
  | '.' :: rest =>
    match takeDigits rest with
    | ([], _) => none
    | (_, rest2) => some rest2
  | _ => some s

/-- Parse of an RFC 3339 timestamp exactly as `time.Parse(time.RFC3339, s)`
accepts it: `YYYY-MM-DDThh:mm:ss` with optional fraction and a `Z` or
`±hh:mm` zone.  The result carries the instant and the offset that was
written in the text. -/
def parseRFC3339 (s : List Char) : Option GoTime :=
  match read4 s with
  | none => none
  | some (y, s1) =>
    match s1 with
    | '-' :: s2 =>
      match read2 s2 with
      | none => none
      | some (mo, s3) =>
        match s3 with
        | '-' :: s4 =>
          match read2 s4 with
          | none => none
          | some (d, s5) =>
            match s5 with
            | 'T' :: s6 =>
              match read2 s6 with
              | none => none
              | some (hh, s7) =>
                match s7 with
                | ':' :: s8 =>
                  match read2 s8 with
                  | none => none
                  | some (mi, s9) =>
                    match s9 with
                    | ':' :: s10 =>
                      match read2 s10 with
                      | none => none
                      | some (ss, s11) =>
                        if 1 ≤ mo ∧ mo ≤ 12 ∧ 1 ≤ d ∧ d ≤ daysInMonth y mo ∧
                           hh ≤ 23 ∧ mi ≤ 59 ∧ ss ≤ 59 then
                          match skipFraction s11 with
                          | none => none
                          | some s12 =>
                            match parseZone s12 with
                            | none => none
                            | some off =>
                              some ⟨daysFromCivil (y : Int) (mo : Int) (d : Int) * 86400 +
                                ((hh * 3600 + mi * 60 + ss : Nat) : Int) - off, off⟩
                        else none
                    | _ => none
                | _ => none
            | _ => none
        | _ => none
    | _ => none

/-- Embedding of `time.ParseInLocation(time.RFC3339, s, time.UTC)`
(base_types.go line 116).  The location argument of `ParseInLocation`
matters only when the layout carries no zone information; the RFC 3339
layout always carries an explicit `Z` or numeric offset, which Go then
uses as-is, so the call accepts exactly what `parseRFC3339` accepts and
never constrains the offset. -/
def parseInLocationRFC3339UTC (s : List Char) : Option GoTime := parseRFC3339 s

/-- Embedding of `UTCDate.UnmarshalJSON` (base_types.go line 110): decode
the JSON string, then parse it in the UTC location. -/
def UTCDate.UnmarshalJSON (data : List Char) : Except GoErr GoTime :=
  match unmarshalStringGo data with
  | .error e => .error e
  | .ok s =>
    match parseInLocationRFC3339UTC s with
    | some t => .ok t
    | none => .error .typeError

/-- Two-digit zero-padded decimal. -/
def pad2 (n : Nat) : List Char := if n < 10 then '0' :: natToText n else natToText n

/-- Four-digit zero-padded decimal. -/
def pad4 (n : Nat) : List Char :=
  if n < 10 then '0' :: '0' :: '0' :: natToText n
  else if n < 100 then '0' :: '0' :: natToText n
  else if n < 1000 then '0' :: natToText n
  else natToText n

/-- Numeric zone rendering `±hh:mm`. -/
def renderOffset (off : Int) : List Char :=
  let a := off.natAbs
  (if off < 0 then '-' else '+') :: pad2 (a / 3600) ++ ':' :: pad2 (a % 3600 / 60)

/-- RFC 3339 rendering of a `GoTime` (the `AppendFormat` call of
`MarshalText`): civil fields of the instant in the attached zone,
followed by `Z` when the offset is zero. -/
def formatRFC3339 (t : GoTime) : List Char :=
  let loc := t.abs + t.offset
  let days := loc.fdiv 86400
  let secs := (loc.emod 86400).toNat
  let c := civilFromDays days
  (pad4 c.1.toNat ++ '-' :: pad2 c.2.1.toNat ++ '-' :: pad2 c.2.2.toNat ++
    'T' :: pad2 (secs / 3600) ++ ':' :: pad2 (secs % 3600 / 60) ++ ':' :: pad2 (secs % 60)) ++
  (if t.offset = 0 then ['Z'] else renderOffset t.offset)

/-- Embedding of `UTCDate.MarshalText` (base_types.go line 104): convert to
UTC (same instant, offset zero), then format. -/
def UTCDate.MarshalText (t : GoTime) : List Char := formatRFC3339 ⟨t.abs, 0⟩

/-- Pointer resolution errors (json_ponter.go lines 17 and 21). -/
inductive PtrErr where
  | invalidPointer
  | noPointerValue
deriving DecidableEq

/-- Embedding of the Go values `GetJSON` traverses through `reflect` (after
interface/pointer unwrapping, which the model's constructors have no
need for).  A struct is modelled by its reflected field list as triples
(field name, value of the `json` struct tag — empty when absent —, field
value). -/
inductive GoValue where
  | null
  | int (n : Int)
  | str (s : List Char)
  | boolean (b : Bool)
  | map (entries : List (List Char × GoValue))
  | slice (xs : List GoValue)
  | record (fields : List (List Char × List Char × GoValue))

/-- Greedy body of one match of the segment regexp
`(/(([^/~])|(~[01]))*)` after its leading `/`: consume characters other
than `/` and `~`, and `~0`/`~1` pairs. -/
def segTake : List Char → List Char × List Char
  | [] => ([], [])
  | '/' :: rest => ([], '/' :: rest)
  | '~' :: rest =>
    match rest with
    | '0' :: r2 =>
      let p := segTake r2
      ('~' :: '0' :: p.1, p.2)
    | '1' :: r2 =>
      let p := segTake r2
      ('~' :: '1' :: p.1, p.2)
    | _ => ([], '~' :: rest)
  | c :: rest =>
    let p := segTake rest
    (c :: p.1, p.2)

/-- Leftmost, non-overlapping matches of the segment regexp in the path:
the scanner skips to each `/` and takes the greedy match from there
(fuel-indexed; the path length always suffices since every step consumes
at least one character). -/
def segScanAux : Nat → List Char → List (List Char)
  | 0, _ => []
  | _ + 1, [] => []
  | fuel + 1, '/' :: rest =>
    let p := segTake rest
    ('/' :: p.1) :: segScanAux fuel p.2
  | fuel + 1, _ :: rest => segScanAux fuel rest

/-- Embedding of `jsonPtrRegexp.FindAllString(path, -1)` (json_ponter.go
line 105); `jsonPtrRegexp.Match(path)` holds exactly when the result is
non-empty. -/
def segScan (path : List Char) : List (List Char) := segScanAux path.length path

/-- Embedding of `strings.Replace(p, "~1", "/", -1)`. -/
def replaceTilde1 : List Char → List Char
  | '~' :: '1' :: rest => '/' :: replaceTilde1 rest
  | c :: rest => c :: replaceTilde1 rest
  | [] => []

/-- Embedding of `strings.Replace(p, "~0", "~", -1)`. -/
def replaceTilde0 : List Char → List Char
  | '~' :: '0' :: rest => '~' :: replaceTilde0 rest
  | c :: rest => c :: replaceTilde0 rest
  | [] => []

/-- Unescaping of one matched segment (json_ponter.go lines 110-114):
`~1` before `~0`, then dropping the leading `/`.  A scanner match always
begins with `/` and replacement keeps it, so the fall-through arm for an
empty or slash-less segment (where the Go expression `p[0]` would be
reached with `p` empty only for an empty match, which the regexp cannot
produce) never fires on scanner output. -/
def unescapeSeg (p : List Char) : List Char :=
  match replaceTilde0 (replaceTilde1 p) with
  | '/' :: t => t
  | other => other

/-- Embedding of `strconv.Atoi` on 64-bit Go: optional sign, at least one
digit, all digits, within the `int` range (a range error makes `Atoi`
return a non-nil error, which `Get` treats as no value). -/
def strconvAtoi (s : List Char) : Option Int :=
  let sp : Bool × List Char := match s with
    | '+' :: r => (false, r)
    | '-' :: r => (true, r)
    | _ => (false, s)
  match takeDigits sp.2 with
  | ([], _) => none
  | (ds, rest) =>
    if rest ≠ [] then none
    else
      let n := digitsToNat ds
      if sp.1 then if n ≤ 2 ^ 63 then some (-(n : Int)) else none
      else if n ≤ 2 ^ 63 - 1 then some (n : Int) else none

/-- The `reflect.Map` arm of `jsonPtrWrapper.Get` (json_ponter.go lines
47-55): find the entry whose key equals the segment (keys of a Go map
are unique, so first match is the match). -/
def mapGet : List (List Char × GoValue) → List Char → Option GoValue
  | [], _ => none
  | (k, v) :: rest, key => if k == key then some v else mapGet rest key

/-- The `reflect.Slice` arm (json_ponter.go lines 56-65): parse the segment
as an index and bounds-check against the length.  For a negative index
the Go code would call `reflect.Value.Index` and panic; no pointer in
this development produces one, and the model returns no value there. -/
def sliceGet (xs : List GoValue) (key : List Char) : Option GoValue :=
  match strconvAtoi key with
  | none => none
  | some i =>
    if (xs.length : Int) ≤ i then none
    else if i < 0 then none
    else xs.get? i.toNat

/-- First comma-separated component of a struct tag,
`strings.Split(tag, ",")[0]`. -/
def tagHead (tag : List Char) : List Char := tag.takeWhile (fun c => c ≠ ',')

/-- ASCII upper-case test for the exported-field check; the Go code uses
`unicode.IsUpper` on the first rune, and every field name in this
development is ASCII. -/
def isUpperCh (c : Char) : Bool := decide (65 ≤ c.toNat ∧ c.toNat ≤ 90)

/-- The `reflect.Struct` arm of `jsonPtrWrapper.Get` (json_ponter.go lines
66-84), translated iteration by iteration: skip unexported fields; for
each field compare the structural name first, then — when a `json` tag
is present — the tag's first component; the first field matching either
wins. -/
def structGet : List (List Char × List Char × GoValue) → List Char → Option GoValue
  | [], _ => none
  | (name, tag, value) :: rest, key =>
    match name with
    | [] => structGet rest key
    | c :: _ =>
      if isUpperCh c = false then structGet rest key
      else if name == key then some value
      else if tag ≠ [] && tagHead tag == key then some value
      else structGet rest key

/-- Embedding of `jsonPtrWrapper.Get` (json_ponter.go line 38). -/
def GoValue.get : GoValue → List Char → Option GoValue
  | .map entries, key => mapGet entries key
  | .slice xs, key => sliceGet xs key
  | .record fields, key => structGet fields key
  | _, _ => none

/-- The traversal loop of `GetJSON` (json_ponter.go lines 106-120),
including the final nil check. -/
def goResolve : List (List Char) → Option GoValue → Except PtrErr GoValue
  | [], none => .error .noPointerValue
  | [], some o => .ok o
  | _ :: _, none => .error .noPointerValue
  | p :: rest, some o => goResolve rest (o.get (unescapeSeg p))

/-- Embedding of `GetJSON` (json_ponter.go line 94) for values traversed
through the built-in reflection wrapper (the alternative branch for a
caller-supplied `JSONObject` implementation is not exercised by any
claim): reject the path if the unanchored regexp finds no match, then
resolve the found segments. -/
def GetJSON (path : List Char) (object : GoValue) : Except PtrErr GoValue :=
  if segScan path = [] then .error .invalidPointer
  else goResolve (segScan path) (some object)

/-- Argument bytes that `json.Marshal` produces for the repository's test
invocation type (a struct whose only wire field is `arg`). -/
def testArgsBlob (s : List Char) : List Char := "\"arg\":".toList ++ quoteGo s |> fun b => '\x7b' :: b ++ ['\x7d']

/-- Embedding of the repository test decoder `unmarshalTestInvocation`:
build an invocation echoing the method name and call id and unmarshal
the argument object into its `arg` string field (absent or `null`
leaves the zero value, a non-string is a type error, unknown members
are ignored). -/
def unmarshalTestInvocation : FuncInvocationUnmarshal := fun methodName callId args =>
  match parseDoc args with
  | some (.obj fields) =>
    match lookupLast fields ("arg".toList) with
    | some (.str s) => .ok (.generic methodName callId (testArgsBlob s))
    | some .null => .ok (.generic methodName callId (testArgsBlob []))
    | none => .ok (.generic methodName callId (testArgsBlob []))
    | some _ => .error .typeError
  | some .null => .ok (.generic methodName callId (testArgsBlob []))
  | _ => .error .typeError

/-- The single call of the C1 round-trip request. -/
def c1CallArgs : List Char := testArgsBlob ("foo".toList)

/-- The C1 request: capability `"cap"`, one call `"NAME"` with call id
`"id"` and arguments `\x7b"arg":"foo"\x7d`. -/
def c1Request : Request := ⟨some ["cap".toList], [.generic ("NAME".toList) ("id".toList) c1CallArgs], []⟩

/-- The exact wire bytes the C1 request must marshal to. -/
def c1Bytes : List Char :=
  "\x7b\"using\":[\"cap\"],\"methodCalls\":[[\"NAME\",\x7b\"arg\":\"foo\"\x7d,\"id\"]]\x7d".toList

/-- A registry containing only the method name `"NAME"`. -/
def c1Registry : Registry := [("NAME".toList, unmarshalTestInvocation)]

/-- The zero `Request` value. -/
def zeroRequest : Request := ⟨none, [], []⟩

/-- The zero `Response` value. -/
def zeroResponse : Response := ⟨[], [], []⟩

/-- The C4 response bytes: a single method-error call. -/
def c4Bytes : List Char :=
  "\x7b\"sessionState\":\"state!\",\"methodResponses\":[[\"error\",\x7b\"type\":\"unknownMethod\"\x7d,\"id\"]]\x7d".toList

/-- The response value the C4 bytes decode to. -/
def c4Expected : Response :=
  ⟨[.methodErr ⟨"unknownMethod".toList, "id".toList, []⟩], [], "state!".toList⟩

/-- Value of a least-significant-first digit list (specification helper for
the decimal round-trip lemmas). -/
def valRev : List Char → Nat
  | [] => 0
  | c :: cs => (c.toNat - 48) + 10 * valRev cs

/-- The struct of the C9 counterexample: the first field has structural
name `B` (wire-name `c`), the second has wire-name `B` (structural name
`A`). -/
def c9Struct : GoValue :=
  .record [("B".toList, "c".toList, .int 0), ("A".toList, "B".toList, .int 1)]

/-- C1: encoding a `Request` with one invocation named `"NAME"`, call id
`"id"`, arguments `\x7b"arg":"foo"\x7d` and `Using` list `["cap"]`
produces exactly the bytes
`\x7b"using":["cap"],"methodCalls":[["NAME",\x7b"arg":"foo"\x7d,"id"]]\x7d`,
and decoding those exact bytes with a registry containing only `"NAME"`
reconstructs the original request — same `Using` list and the same
single call with its name, call id and arguments — whatever the
receiver held before. -/
theorem C1_envelope_roundtrip :
    Request.marshalJSON c1Request = some (.ok c1Bytes) ∧
    ∀ r : Request, Request.unmarshal r c1Bytes c1Registry = some (c1Request, none) := by
  exact ⟨rfl, fun r => rfl⟩

/-- Witness for C1 at the zero receiver. -/
theorem C1_envelope_roundtrip_witness :
    Request.unmarshal zeroRequest c1Bytes c1Registry = some (c1Request, none) :=
  C1_envelope_roundtrip.2 zeroRequest

/-- C7: the spec (and RFC 6901, which the Go doc comment claims to
implement) makes the empty pointer resolve to the root value, but the
code rejects it: `jsonPtrRegexp` is unanchored and the empty string
contains no `/`, so `Match` fails and `GetJSON` returns the
invalid-pointer-syntax error for every root value instead of the root
itself. -/
theorem C7_empty_pointer_rejected :
    ∀ v : GoValue, GetJSON [] v = .error .invalidPointer := fun _ => rfl

/-- Witness for C7 at a concrete root value. -/
theorem C7_empty_pointer_rejected_witness :
    GetJSON [] (GoValue.int 5) = .error .invalidPointer :=
  C7_empty_pointer_rejected (GoValue.int 5)

/-- C10 counterexample: the argument bytes `\x7b` start with an opening
brace, yet `MarshalInvocation` does not emit the triplet as the claim
requires: the final `json.Marshal` call validates the `json.RawMessage`
argument bytes and they are not a complete JSON document, so the
function returns an error instead. -/
theorem C10_counterexample_invalid_brace_args :
    MarshalInvocation ("method".toList) ("foo".toList) ['\x7b'] = some (.error .typeError) ∧
    (some (.error GoErr.typeError) : Option (Except GoErr (List Char))) ≠
      some (.ok (mkTriplet ("method".toList) ['\x7b'] ("foo".toList))) := by
  exact ⟨rfl, by simp⟩

/-- C10 (amended): `MarshalInvocation` reads `args[0]` with no length
check, so the embedding is total only for non-empty `args` (for empty
`args` the operation aborts — modelled as `none` — rather than returning
an error value); for non-empty `args` it returns the
arguments-must-be-object error exactly when the first byte is not an
opening brace; when the first byte is an opening brace, `json.Marshal`
validates the argument bytes — failing when they are not one complete
JSON document — and otherwise emits the triplet with the argument bytes
compacted. -/
theorem C10_marshal_invocation_validated :
    (∀ (methodName callId : List Char) (c : Char) (rest : List Char), c ≠ '\x7b' →
      MarshalInvocation methodName callId (c :: rest) = some (.error .argsMustBeObject)) ∧
    (∀ (methodName callId args args2 : List Char), args.head? = some '\x7b' →
      compactGo args = some args2 →
      MarshalInvocation methodName callId args = some (.ok (mkTriplet methodName args2 callId))) ∧
    (∀ (methodName callId args : List Char), args.head? = some '\x7b' →
      compactGo args = none →
      MarshalInvocation methodName callId args = some (.error .typeError)) ∧
    (∀ methodName callId : List Char, MarshalInvocation methodName callId [] = none) := by
  refine ⟨?_, ?_, ?_, fun _ _ => rfl⟩
  · intro methodName callId c rest hc
    show (if c ≠ '\x7b' then some (Except.error GoErr.argsMustBeObject)
      else match compactGo (c :: rest) with
        | some args2 => some (Except.ok (mkTriplet methodName args2 callId))
        | none => some (Except.error GoErr.typeError)) =
      some (Except.error GoErr.argsMustBeObject)
    rw [if_pos hc]
  · intro methodName callId args args2 hhead hcomp
    rcases args with _ | ⟨c, rest⟩
    · exact absurd hhead (by simp)
    · have hc : c = '\x7b' := Option.some.inj hhead
      subst hc
      show (if ('\x7b' : Char) ≠ '\x7b' then some (Except.error GoErr.argsMustBeObject)
        else match compactGo ('\x7b' :: rest) with
          | some args2 => some (Except.ok (mkTriplet methodName args2 callId))
          | none => some (Except.error GoErr.typeError)) =
        some (Except.ok (mkTriplet methodName args2 callId))
      rw [if_neg (by simp), hcomp]
  · intro methodName callId args hhead hcomp
    rcases args with _ | ⟨c, rest⟩
    · exact absurd hhead (by simp)
    · have hc : c = '\x7b' := Option.some.inj hhead
      subst hc
      show (if ('\x7b' : Char) ≠ '\x7b' then some (Except.error GoErr.argsMustBeObject)
        else match compactGo ('\x7b' :: rest) with
          | some args2 => some (Except.ok (mkTriplet methodName args2 callId))
          | none => some (Except.error GoErr.typeError)) =
        some (Except.error GoErr.typeError)
      rw [if_neg (by simp), hcomp]

/-- Witness for C10 (amended) at the repo test inputs, at non-compact and
invalid argument bytes, and at empty arguments. -/
theorem C10_marshal_invocation_validated_witness :
    MarshalInvocation ("method".toList) ("foo".toList) ("null".toList) =
      some (.error .argsMustBeObject) ∧
    MarshalInvocation ("method".toList) ("foo".toList) ("\x7b\x7d".toList) =
      some (.ok (mkTriplet ("method".toList) ("\x7b\x7d".toList) ("foo".toList))) ∧
    MarshalInvocation ("method".toList) ("foo".toList) ("\x7b \x7d".toList) =
      some (.ok (mkTriplet ("method".toList) ("\x7b\x7d".toList) ("foo".toList))) ∧
    MarshalInvocation ("method".toList) ("foo".toList) ['\x7b'] = some (.error .typeError) ∧
    MarshalInvocation ("method".toList) ("foo".toList) [] = none := by
  refine ⟨?_, ?_, ?_, ?_, ?_⟩
  · exact C10_marshal_invocation_validated.1 ("method".toList) ("foo".toList)
      'n' ("ull".toList) (by decide)
  · exact C10_marshal_invocation_validated.2.1 ("method".toList) ("foo".toList)
      ("\x7b\x7d".toList) ("\x7b\x7d".toList) rfl rfl
  · exact C10_marshal_invocation_validated.2.1 ("method".toList) ("foo".toList)
      ("\x7b \x7d".toList) ("\x7b\x7d".toList) rfl rfl
  · exact C10_marshal_invocation_validated.2.2.1 ("method".toList) ("foo".toList)
      ['\x7b'] rfl rfl
  · exact C10_marshal_invocation_validated.2.2.2 ("method".toList) ("foo".toList)

/-- C6 counterexample: decoding the RFC 3339 text
`2012-01-01T00:00:00+05:00`, whose offset is not UTC, succeeds —
`time.ParseInLocation` with the RFC 3339 layout takes the explicit
offset from the text and its location argument rejects nothing — while
the claim says such input must fail. -/
theorem C6_counterexample_nonUTC_accepted :
    UTCDate.UnmarshalJSON ("\"2012-01-01T00:00:00+05:00\"".toList) =
      .ok ⟨1325358000, 18000⟩ ∧ (18000 : Int) ≠ 0 := by
  exact ⟨rfl, by decide⟩

/-- C8 counterexample: the path `a/b` does not match the pointer grammar in
full (its first character is not `/`), yet `GetJSON` does not return the
invalid-pointer-syntax error: the unanchored regexp finds the substring
`/b` and the traversal resolves it. -/
theorem C8_counterexample_unanchored :
    GetJSON ("a/b".toList) (GoValue.map [("b".toList, .int 1)]) = .ok (.int 1) ∧
    GetJSON ("a/b".toList) (GoValue.map [("b".toList, .int 1)]) ≠ .error .invalidPointer := by
  refine ⟨rfl, fun h => ?_⟩
  exact Except.noConfusion
    ((show GetJSON ("a/b".toList) (GoValue.map [("b".toList, .int 1)]) = .ok (.int 1)
      from rfl).symm.trans h)

/-- C9 counterexample: in `c9Struct` the first field's structural name `B`
equals the second field's wire-name, and the segment `/B` resolves to
the first field (value `0`) — the structural-name match wins because the
code compares `f.Name` before the tag and scans fields in order — not to
the field whose wire-name matches (value `1`) as the claim requires. -/
theorem C9_counterexample_struct_lookup :
    GetJSON ("/B".toList) c9Struct = .ok (.int 0) ∧ GoValue.int 0 ≠ GoValue.int 1 := by
  exact ⟨rfl, by simp⟩

/-- C4: during response decoding a call named `"error"` is decoded by the
built-in method-error decoder regardless of the registry contents: the
concrete bytes
`\x7b"sessionState":"state!","methodResponses":[["error",\x7b"type":"unknownMethod"\x7d,"id"]]\x7d`
decode successfully against every registry (the empty one included) to
the method-error response, and `Response.Unmarshal` returns the
caller-supplied registry exactly as it received it — it never adds,
removes or replaces an entry. -/
theorem C4_builtin_error_decoder :
    (∀ (r : Response) (ctors : Registry),
      Response.unmarshal r c4Bytes ctors = some ((c4Expected, ctors), none)) ∧
    (∀ (r : Response) (data : List Char) (ctors : Registry) out,
      Response.unmarshal r data ctors = some out → out.1.2 = ctors) := by
  constructor
  · intro r ctors; rfl
  · intro r data ctors out h
    unfold Response.unmarshal at h
    split at h
    · injection h with h1; subst h1; rfl
    · split at h
      · exact Option.noConfusion h
      · injection h with h1; subst h1; rfl
      · injection h with h1; subst h1; rfl

/-- Witness for C4: the concrete decode against the empty registry, and the
registry-preservation clause applied to it. -/
theorem C4_builtin_error_decoder_witness :
    Response.unmarshal zeroResponse c4Bytes [] = some ((c4Expected, []), none) ∧
    ([] : Registry) = [] := by
  exact ⟨C4_builtin_error_decoder.1 zeroResponse [],
    C4_builtin_error_decoder.2 zeroResponse c4Bytes [] ((c4Expected, []), none)
      (C4_builtin_error_decoder.1 zeroResponse [])⟩

/-- C3: whenever `Request.Unmarshal` or `Response.Unmarshal` returns an
error — malformed triplet, non-object arguments, unknown method name, or
a failing per-method decoder — the receiver is returned unchanged; its
fields are replaced only on a fully successful decode, exactly as the Go
code assigns to the receiver only after the loop. -/
theorem C3_no_partial_mutation :
    (∀ (r : Request) (data : List Char) (ctors : Registry) (r2 : Request) (e : GoErr),
      Request.unmarshal r data ctors = some (r2, some e) → r2 = r) ∧
    (∀ (r : Response) (data : List Char) (ctors : Registry)
      (resp : Response) (reg : Registry) (e : GoErr),
      Response.unmarshal r data ctors = some ((resp, reg), some e) → resp = r) := by
  constructor
  · intro r data ctors r2 e h
    unfold Request.unmarshal at h
    split at h
    · injection h with h1
      exact (congrArg Prod.fst h1).symm
    · split at h
      · exact Option.noConfusion h
      · injection h with h1
        exact (congrArg Prod.fst h1).symm
      · injection h with h1
        exact absurd (congrArg Prod.snd h1) (by simp)
  · intro r data ctors resp reg e h
    unfold Response.unmarshal at h
    split at h
    · injection h with h1
      have := congrArg (fun p => p.1.1) h1
      exact this.symm
    · split at h
      · exact Option.noConfusion h
      · injection h with h1
        have := congrArg (fun p => p.1.1) h1
        exact this.symm
      · injection h with h1
        exact absurd (congrArg (fun p => p.2) h1) (by simp)

/-- Witness for C3: a malformed document leaves a concrete request
receiver unchanged, and an unknown method name leaves a concrete
response receiver unchanged. -/
theorem C3_no_partial_mutation_witness :
    Request.unmarshal zeroRequest ("[".toList) [] = some (zeroRequest, some .typeError) ∧
    zeroRequest = zeroRequest ∧
    Response.unmarshal zeroResponse
      ("\x7b\"methodResponses\":[[\"unknown\",\x7b\x7d,\"id\"]]\x7d".toList) [] =
      some ((zeroResponse, []), some .unknownMethod) ∧
    zeroResponse = zeroResponse := by
  refine ⟨rfl, ?_, rfl, ?_⟩
  · exact C3_no_partial_mutation.1 zeroRequest ("[".toList) [] zeroRequest .typeError rfl
  · exact C3_no_partial_mutation.2 zeroResponse
      ("\x7b\"methodResponses\":[[\"unknown\",\x7b\x7d,\"id\"]]\x7d".toList) []
      zeroResponse [] .unknownMethod rfl

/-- C2: `UnmarshalInvocation` fails whenever the input does not decode as a
JSON array of exactly 3 raw elements — a decode error is passed through
and a wrong element count yields the distinguished need-3-elements error
(so the 2-element array of the repository test fails with it); for a
3-element array whose second element does not start with an opening
brace the call fails (with the arguments-must-be-object error once the
two string elements decode, as in the `["meth", null, "callid"]` test);
and when the second element starts with an opening brace it returns
element 0 decoded as the method name, element 2 decoded as the call id
and element 1 verbatim as the raw argument bytes. -/
theorem C2_unmarshal_invocation_triplet :
    (∀ (data : List Char) (e : GoErr), parseRawMessageList data = .error e →
      UnmarshalInvocation data = some (.error e)) ∧
    (∀ (data : List Char) (l : List (List Char)), parseRawMessageList data = .ok l →
      l.length ≠ 3 → UnmarshalInvocation data = some (.error .need3Elements)) ∧
    (∀ (data r0 r1 r2 : List Char),
      parseRawMessageList data = .ok [r0, r1, r2] → r1 ≠ [] → r1.head? ≠ some '\x7b' →
      ∃ e, UnmarshalInvocation data = some (.error e)) ∧
    (∀ (data r0 r1 r2 m c : List Char),
      parseRawMessageList data = .ok [r0, r1, r2] →
      unmarshalStringGo r0 = .ok m → unmarshalStringGo r2 = .ok c →
      r1.head? = some '\x7b' →
      UnmarshalInvocation data = some (.ok (m, c, r1))) ∧
    UnmarshalInvocation ("[\"meth\", \x7b\"arg1\":1\x7d, \"callid\"]".toList) =
      some (.ok ("meth".toList, "callid".toList, "\x7b\"arg1\":1\x7d".toList)) ∧
    UnmarshalInvocation ("[\"meth\", \x7b\"arg1\":1\x7d]".toList) =
      some (.error .need3Elements) ∧
    UnmarshalInvocation ("[\"meth\", null, \"callid\"]".toList) =
      some (.error .argsMustBeObject) := by
  refine ⟨?_, ?_, ?_, ?_, rfl, rfl, rfl⟩
  · intro data e h
    unfold UnmarshalInvocation
    rw [h]
  · intro data l h hl
    unfold UnmarshalInvocation
    rw [h]
    rcases l with _ | ⟨r0, _ | ⟨r1, _ | ⟨r2, _ | ⟨r3, t⟩⟩⟩⟩
    · rfl
    · rfl
    · rfl
    · exact absurd rfl hl
    · rfl
  · intro data r0 r1 r2 h hne hhead
    unfold UnmarshalInvocation
    rw [h]
    cases hm0 : unmarshalStringGo r0 with
    | error e => exact ⟨e, by simp only [hm0]⟩
    | ok m =>
      cases hm2 : unmarshalStringGo r2 with
      | error e => exact ⟨e, by simp only [hm0, hm2]⟩
      | ok c =>
        rcases r1 with _ | ⟨c1, t1⟩
        · exact absurd rfl hne
        · have hc1 : c1 ≠ '\x7b' := by
            intro hq
            exact hhead (by rw [hq]; rfl)
          refine ⟨.argsMustBeObject, ?_⟩
          simp only [hm0, hm2]
          rw [if_pos hc1]
  · intro data r0 r1 r2 m c h hm0 hm2 hhead
    unfold UnmarshalInvocation
    rw [h]
    rcases r1 with _ | ⟨c1, t1⟩
    · exact absurd hhead (by simp)
    · have hc1 : c1 = '\x7b' := by
        have : some c1 = some '\x7b' := hhead
        exact Option.some.inj this
      subst hc1
      simp only [hm0, hm2]
      rw [if_neg (by simp)]

/-- Witness for C2 on the three concrete triplets of the repository tests,
discharging the hypotheses of each universally quantified clause. -/
theorem C2_unmarshal_invocation_triplet_witness :
    UnmarshalInvocation ("\x7b\x7d".toList) = some (.error .typeError) ∧
    UnmarshalInvocation ("[\"meth\", \x7b\"arg1\":1\x7d]".toList) =
      some (.error .need3Elements) ∧
    (∃ e, UnmarshalInvocation ("[\"meth\", null, \"callid\"]".toList) = some (.error e)) ∧
    UnmarshalInvocation ("[\"meth\", \x7b\"arg1\":1\x7d, \"callid\"]".toList) =
      some (.ok ("meth".toList, "callid".toList, "\x7b\"arg1\":1\x7d".toList)) := by
  refine ⟨?_, ?_, ?_, ?_⟩
  · exact C2_unmarshal_invocation_triplet.1 ("\x7b\x7d".toList) .typeError rfl
  · exact C2_unmarshal_invocation_triplet.2.1 ("[\"meth\", \x7b\"arg1\":1\x7d]".toList)
      ["\"meth\"".toList, "\x7b\"arg1\":1\x7d".toList] rfl (by decide)
  · exact C2_unmarshal_invocation_triplet.2.2.1 ("[\"meth\", null, \"callid\"]".toList)
      ("\"meth\"".toList) ("null".toList) ("\"callid\"".toList) rfl (by decide) (by decide)
  · exact C2_unmarshal_invocation_triplet.2.2.2.1
      ("[\"meth\", \x7b\"arg1\":1\x7d, \"callid\"]".toList)
      ("\"meth\"".toList) ("\x7b\"arg1\":1\x7d".toList) ("\"callid\"".toList)
      ("meth".toList) ("callid".toList) rfl rfl rfl rfl

theorem char_digit_toNat (d : Nat) (hd : d < 10) : (Char.ofNat (48 + d)).toNat = 48 + d := by
  interval_cases d <;> rfl

theorem natToTextRev_zero (fuel : Nat) : natToTextRev fuel 0 = [] := by
  cases fuel <;> simp [natToTextRev]

theorem valRev_natToTextRev : ∀ fuel n : Nat, n ≤ fuel → valRev (natToTextRev fuel n) = n := by
  intro fuel
  induction fuel with
  | zero =>
    intro n hn
    interval_cases n
    simp [natToTextRev, valRev]
  | succ f ih =>
    intro n hn
    by_cases h0 : n = 0
    · subst h0; simp [natToTextRev, valRev]
    · have hdiv : n / 10 ≤ f := by
        have := Nat.div_lt_self (Nat.pos_of_ne_zero h0) (by norm_num : 1 < 10)
        omega
      simp only [natToTextRev, if_neg h0, valRev]
      rw [ih _ hdiv, char_digit_toNat _ (Nat.mod_lt _ (by norm_num))]
      omega

theorem natToTextRev_digits : ∀ fuel n : Nat, ∀ c ∈ natToTextRev fuel n, isDigitCh c = true := by
  intro fuel
  induction fuel with
  | zero => intro n c hc; simp [natToTextRev] at hc
  | succ f ih =>
    intro n c hc
    by_cases h0 : n = 0
    · subst h0; simp [natToTextRev] at hc
    · simp only [natToTextRev, if_neg h0, List.mem_cons] at hc
      rcases hc with hc | hc
      · subst hc
        have h10 : n % 10 < 10 := Nat.mod_lt _ (by norm_num)
        simp [isDigitCh, char_digit_toNat _ h10]
        omega
      · exact ih _ _ hc

theorem natToTextRev_ne_nil (fuel n : Nat) (h1 : 0 < n) (h2 : n ≤ fuel) :
    natToTextRev fuel n ≠ [] := by
  cases fuel with
  | zero => omega
  | succ f =>
    simp only [natToTextRev, if_neg (by omega : ¬n = 0)]
    simp

theorem natToTextRev_getLast : ∀ fuel n : Nat, 0 < n → n ≤ fuel →
    ∀ d, (natToTextRev fuel n).getLast? = some d → d.toNat ≠ 48 := by
  intro fuel
  induction fuel with
  | zero => intro n h1 h2; omega
  | succ f ih =>
    intro n h1 h2 d hd
    simp only [natToTextRev, if_neg (by omega : ¬n = 0)] at hd
    by_cases hq : n / 10 = 0
    · rw [hq, natToTextRev_zero] at hd
      have hn10 : n < 10 := by omega
      have hmod : n % 10 = n := Nat.mod_eq_of_lt hn10
      simp only [List.getLast?_singleton, Option.some.injEq] at hd
      rw [← hd, char_digit_toNat _ (by omega)]
      omega
    · have hdiv : n / 10 ≤ f := by
        have := Nat.div_lt_self h1 (by norm_num : 1 < 10)
        omega
      obtain ⟨x, xs, hxx⟩ : ∃ x xs, natToTextRev f (n / 10) = x :: xs := by
        cases h : natToTextRev f (n / 10) with
        | nil => exact absurd h (natToTextRev_ne_nil f _ (Nat.pos_of_ne_zero hq) hdiv)
        | cons x xs => exact ⟨x, xs, rfl⟩
      rw [hxx, List.getLast?_cons_cons] at hd
      exact ih _ (Nat.pos_of_ne_zero hq) hdiv d (by rw [hxx]; exact hd)

theorem natToText_digits (n : Nat) : ∀ c ∈ natToText n, isDigitCh c = true := by
  intro c hc
  unfold natToText at hc
  by_cases h0 : n = 0
  · rw [if_pos h0] at hc
    simp at hc
    subst hc
    decide
  · rw [if_neg h0, List.mem_reverse] at hc
    exact natToTextRev_digits n n c hc

theorem natToText_ne_nil (n : Nat) : natToText n ≠ [] := by
  unfold natToText
  by_cases h0 : n = 0
  · rw [if_pos h0]; simp
  · rw [if_neg h0]
    simp only [ne_eq, List.reverse_eq_nil_iff]
    exact natToTextRev_ne_nil n n (Nat.pos_of_ne_zero h0) (le_refl n)

theorem digitsOkJSON_natToText (n : Nat) : digitsOkJSON (natToText n) = true := by
  by_cases h0 : n = 0
  · subst h0; decide
  · cases hL : natToText n with
    | nil => exact absurd hL (natToText_ne_nil n)
    | cons c t =>
      cases t with
      | nil => rfl
      | cons c2 t2 =>
        have hc : c.toNat ≠ 48 := by
          have hh : (natToText n).head? = some c := by rw [hL]; rfl
          unfold natToText at hh
          rw [if_neg h0] at hh
          rw [List.head?_reverse] at hh
          exact natToTextRev_getLast n n (Nat.pos_of_ne_zero h0) (le_refl n) c hh
        show (c != '0') = true
        simp only [bne_iff_ne, ne_eq]
        intro hq
        subst hq
        exact hc rfl

theorem takeDigits_all (l : List Char) (h : ∀ c ∈ l, isDigitCh c = true) :
    takeDigits l = (l, []) := by
  induction l with
  | nil => rfl
  | cons c t ih =>
    have hc := h c (by simp)
    simp [takeDigits, hc, ih (fun x hx => h x (by simp [hx]))]

theorem foldl_digits_reverse (l : List Char) (acc : Nat) :
    List.foldl (fun a c => a * 10 + (c.toNat - 48)) acc l.reverse =
      acc * 10 ^ l.length + valRev l := by
  induction l generalizing acc with
  | nil => simp [valRev]
  | cons c t ih =>
    simp only [List.reverse_cons, List.foldl_append, List.foldl_cons, List.foldl_nil, ih,
      valRev, List.length_cons, pow_succ]
    ring

theorem digitsToNat_natToText (n : Nat) : digitsToNat (natToText n) = n := by
  by_cases h0 : n = 0
  · subst h0; decide
  · unfold natToText digitsToNat
    rw [if_neg h0, foldl_digits_reverse, valRev_natToTextRev n n (le_refl n)]
    simp

theorem jskipWs_cons_not_ws (c : Char) (t : List Char)
    (h : c ≠ ' ' ∧ c ≠ '\t' ∧ c ≠ '\n' ∧ c ≠ '\r') : jskipWs (c :: t) = c :: t := by
  obtain ⟨h1, h2, h3, h4⟩ := h
  rw [jskipWs.eq_def]
  split
  · rename_i rest heq
    injection heq with hc _
    exact absurd hc h1
  · rename_i rest heq
    injection heq with hc _
    exact absurd hc h2
  · rename_i rest heq
    injection heq with hc _
    exact absurd hc h3
  · rename_i rest heq
    injection heq with hc _
    exact absurd hc h4
  · rfl

theorem jskipWs_digit_cons (c : Char) (t : List Char) (hc : isDigitCh c = true) :
    jskipWs (c :: t) = c :: t := by
  refine jskipWs_cons_not_ws c t ⟨?_, ?_, ?_, ?_⟩ <;>
    (intro h; subst h; exact absurd hc (by decide))

theorem jskipWs_nil : jskipWs [] = [] := rfl

theorem unmarshalInt64_natToText (n : Nat) (hn : n ≤ 2 ^ 63 - 1) :
    unmarshalInt64 (natToText n) = .ok (n : Int) := by
  obtain ⟨c, t, hct⟩ : ∃ c t, natToText n = c :: t := by
    cases h : natToText n with
    | nil => exact absurd h (natToText_ne_nil n)
    | cons c t => exact ⟨c, t, rfl⟩
  have hcd : isDigitCh c = true := natToText_digits n c (by rw [hct]; exact List.mem_cons_self c t)
  have hskip : jskipWs (natToText n) = natToText n := by
    rw [hct]; exact jskipWs_digit_cons c t hcd
  have hneg : ((natToText n).head? == some '-') = false := by
    rw [hct]
    show (some c == some '-') = false
    rw [beq_eq_false_iff_ne]
    intro hq
    have hq2 : c = '-' := Option.some.inj hq
    subst hq2
    exact absurd hcd (by decide)
  simp only [unmarshalInt64, hskip, hneg, Bool.false_eq_true, if_false,
    takeDigits_all _ (natToText_digits n), digitsOkJSON_natToText, digitsToNat_natToText,
    jskipWs_nil, ne_eq, not_true_eq_false, Bool.true_eq_false]
  rw [if_pos hn]

theorem unmarshalInt64_negText (n : Nat) (_h1 : 0 < n) (hn : n ≤ 2 ^ 63) :
    unmarshalInt64 ('-' :: natToText n) = .ok (-(n : Int)) := by
  have hskip : jskipWs ('-' :: natToText n) = '-' :: natToText n := by
    refine jskipWs_cons_not_ws _ _ ⟨?_, ?_, ?_, ?_⟩ <;> decide
  have hneg : (('-' :: natToText n).head? == some '-') = true := by rfl
  simp only [unmarshalInt64, hskip, hneg, if_true, List.tail_cons,
    takeDigits_all _ (natToText_digits n), digitsOkJSON_natToText, digitsToNat_natToText,
    jskipWs_nil, ne_eq, not_true_eq_false, Bool.true_eq_false]
  rw [if_pos hn]
  simp

theorem unmarshalUint64_natToText (n : Nat) (hn : n ≤ 2 ^ 64 - 1) :
    unmarshalUint64 (natToText n) = .ok n := by
  obtain ⟨c, t, hct⟩ : ∃ c t, natToText n = c :: t := by
    cases h : natToText n with
    | nil => exact absurd h (natToText_ne_nil n)
    | cons c t => exact ⟨c, t, rfl⟩
  have hcd : isDigitCh c = true := natToText_digits n c (by rw [hct]; exact List.mem_cons_self c t)
  have hskip : jskipWs (natToText n) = natToText n := by
    rw [hct]; exact jskipWs_digit_cons c t hcd
  simp only [unmarshalUint64, hskip,
    takeDigits_all _ (natToText_digits n), digitsOkJSON_natToText, digitsToNat_natToText,
    jskipWs_nil, ne_eq, not_true_eq_false, Bool.true_eq_false]
  rw [if_pos hn]
  simp

/-- C5: for every `int64` value, `Int.MarshalJSON` succeeds exactly when the
value lies in the inclusive range from `-(2^53-1)` to `2^53-1` and
otherwise fails with the distinguished out-of-range error (never
clamping); whenever encoding succeeds, decoding the produced text yields
the value back; the same holds for `UnsignedInt` over `0 ≤ v ≤ 2^53-1`;
and encoding `Int(2251799813685248)` yields the literal text
`2251799813685248`. -/
theorem C5_bounded_integer_codec :
    (∀ v : Int, -(2 ^ 63) ≤ v → v < 2 ^ 63 →
      ((∃ out, Int.MarshalJSON v = .ok out) ↔ Int.Valid v = true)) ∧
    (∀ v : Int, Int.Valid v = false → Int.MarshalJSON v = .error .outOfRange) ∧
    (∀ (v : Int) (out : List Char), Int.MarshalJSON v = .ok out →
      Int.UnmarshalJSON out = .ok v) ∧
    (∀ v : Nat, v < 2 ^ 64 →
      ((∃ out, UnsignedInt.MarshalJSON v = .ok out) ↔ UnsignedInt.Valid v = true)) ∧
    (∀ v : Nat, UnsignedInt.Valid v = false → UnsignedInt.MarshalJSON v = .error .outOfRange) ∧
    (∀ (v : Nat) (out : List Char), UnsignedInt.MarshalJSON v = .ok out →
      UnsignedInt.UnmarshalJSON out = .ok v) ∧
    Int.MarshalJSON 2251799813685248 = .ok ("2251799813685248".toList) := by
  refine ⟨?_, ?_, ?_, ?_, ?_, ?_, ?_⟩
  · intro v _ _
    constructor
    · rintro ⟨out, hout⟩
      by_cases hv : Int.Valid v = true
      · exact hv
      · unfold Int.MarshalJSON at hout
        rw [if_neg hv] at hout
        exact Except.noConfusion hout
    · intro hv
      exact ⟨intToText v, by unfold Int.MarshalJSON; rw [if_pos hv]⟩
  · intro v hv
    unfold Int.MarshalJSON
    rw [if_neg (by rw [hv]; simp)]
  · intro v out hout
    have hv : Int.Valid v = true := by
      by_cases h : Int.Valid v = true
      · exact h
      · unfold Int.MarshalJSON at hout
        rw [if_neg h] at hout
        exact Except.noConfusion hout
    have hbounds : -(2 ^ 53) + 1 ≤ v ∧ v ≤ 2 ^ 53 - 1 := of_decide_eq_true hv
    have hout2 : out = intToText v := by
      unfold Int.MarshalJSON at hout
      rw [if_pos hv] at hout
      exact (Except.ok.inj hout).symm
    subst hout2
    unfold Int.UnmarshalJSON
    by_cases hvneg : v < 0
    · have hm : intToText v = '-' :: natToText (-v).toNat := by
        unfold intToText; rw [if_pos hvneg]
      rw [hm, unmarshalInt64_negText (-v).toNat (by omega) (by omega)]
      have hcast : (((-v).toNat : Int)) = -v := Int.toNat_of_nonneg (by omega)
      rw [hcast]
      simp only [neg_neg]
      rw [if_pos hv]
    · have hm : intToText v = natToText v.toNat := by
        unfold intToText; rw [if_neg hvneg]
      rw [hm, unmarshalInt64_natToText v.toNat (by omega)]
      have hcast : ((v.toNat : Int)) = v := Int.toNat_of_nonneg (by omega)
      rw [hcast]
      show (if Int.Valid v = true then Except.ok v else Except.error GoErr.outOfRange) =
        Except.ok v
      rw [if_pos hv]
  · intro v _
    constructor
    · rintro ⟨out, hout⟩
      by_cases hv : UnsignedInt.Valid v = true
      · exact hv
      · unfold UnsignedInt.MarshalJSON at hout
        rw [if_neg hv] at hout
        exact Except.noConfusion hout
    · intro hv
      exact ⟨natToText v, by unfold UnsignedInt.MarshalJSON; rw [if_pos hv]⟩
  · intro v hv
    unfold UnsignedInt.MarshalJSON
    rw [if_neg (by rw [hv]; simp)]
  · intro v out hout
    have hv : UnsignedInt.Valid v = true := by
      by_cases h : UnsignedInt.Valid v = true
      · exact h
      · unfold UnsignedInt.MarshalJSON at hout
        rw [if_neg h] at hout
        exact Except.noConfusion hout
    have hbounds : v ≤ 2 ^ 53 - 1 := of_decide_eq_true hv
    have hout2 : out = natToText v := by
      unfold UnsignedInt.MarshalJSON at hout
      rw [if_pos hv] at hout
      exact (Except.ok.inj hout).symm
    subst hout2
    unfold UnsignedInt.UnmarshalJSON
    rw [unmarshalUint64_natToText v (by omega)]
    show (if UnsignedInt.Valid v = true then Except.ok v else Except.error GoErr.outOfRange) =
      Except.ok v
    rw [if_pos hv]
  · rfl

/-- Witness for C5 at small concrete values and at the out-of-range value
`2^54`. -/
theorem C5_bounded_integer_codec_witness :
    ((∃ out, Int.MarshalJSON 5 = .ok out) ↔ Int.Valid 5 = true) ∧
    Int.MarshalJSON (2 ^ 54) = .error .outOfRange ∧
    Int.UnmarshalJSON (intToText (-12345)) = .ok (-12345) ∧
    ((∃ out, UnsignedInt.MarshalJSON 5 = .ok out) ↔ UnsignedInt.Valid 5 = true) ∧
    UnsignedInt.MarshalJSON (2 ^ 54) = .error .outOfRange ∧
    UnsignedInt.UnmarshalJSON (natToText 7) = .ok 7 := by
  refine ⟨?_, ?_, ?_, ?_, ?_, ?_⟩
  · exact C5_bounded_integer_codec.1 5 (by decide) (by decide)
  · exact C5_bounded_integer_codec.2.1 (2 ^ 54) (by decide)
  · exact C5_bounded_integer_codec.2.2.1 (-12345) (intToText (-12345)) rfl
  · exact C5_bounded_integer_codec.2.2.2.1 5 (by decide)
  · exact C5_bounded_integer_codec.2.2.2.2.1 (2 ^ 54) (by decide)
  · exact C5_bounded_integer_codec.2.2.2.2.2.1 7 (natToText 7) rfl

theorem segScanAux_cons_other (fuel : Nat) (c : Char) (rest : List Char) (hc : c ≠ '/') :
    segScanAux (fuel + 1) (c :: rest) = segScanAux fuel rest := by
  rw [segScanAux.eq_def]
  split
  · rename_i heq
    omega
  · rename_i hf hl
    exact absurd hl (by simp)
  · rename_i f2 r2 hf hl
    injection hl with h1 _
    exact absurd h1 hc
  · rename_i f2 hd r2 hne hf hl
    injection hl with h1 h2
    have hf2 : f2 = fuel := by omega
    subst hf2
    rw [h2]

theorem segScanAux_nil_iff : ∀ (fuel : Nat) (s : List Char), s.length ≤ fuel →
    (segScanAux fuel s = [] ↔ '/' ∉ s) := by
  intro fuel
  induction fuel with
  | zero =>
    intro s hs
    have : s = [] := List.length_eq_zero.mp (by omega)
    subst this
    simp [segScanAux]
  | succ f ih =>
    intro s hs
    cases s with
    | nil => simp [segScanAux]
    | cons c rest =>
      by_cases hc : c = '/'
      · subst hc
        constructor
        · intro h
          exact absurd h (by simp [segScanAux])
        · intro h
          exact absurd (by simp : '/' ∈ '/' :: rest) h
      · rw [segScanAux_cons_other f c rest hc]
        rw [ih rest (by simp at hs; omega)]
        simp only [List.mem_cons, not_or]
        constructor
        · intro h
          exact ⟨fun hq => hc hq.symm, h⟩
        · intro h
          exact h.2

theorem goResolve_ne_invalid : ∀ (parts : List (List Char)) (o : Option GoValue),
    goResolve parts o ≠ .error .invalidPointer := by
  intro parts
  induction parts with
  | nil =>
    intro o
    cases o <;> simp [goResolve]
  | cons p rest ih =>
    intro o
    cases o with
    | none => simp [goResolve]
    | some v => exact ih (v.get (unescapeSeg p))

/-- C6 (amended): decoding a `UTCDate` succeeds for every RFC 3339 input
text, whatever offset the text carries — the UTC location argument of
`ParseInLocation` never constrains an explicit offset, which is taken
from the text rather than rejected — while encoding converts the
instant to UTC and always produces a text ending in `Z`. -/
theorem C6_amended_decode_any_offset :
    (∀ (data s : List Char) (t : GoTime),
      unmarshalStringGo data = .ok s → parseRFC3339 s = some t →
      UTCDate.UnmarshalJSON data = .ok t) ∧
    (∀ t : GoTime, ∃ p, UTCDate.MarshalText t = p ++ ['Z']) := by
  constructor
  · intro data s t h1 h2
    unfold UTCDate.UnmarshalJSON
    rw [h1]
    show (match parseInLocationRFC3339UTC s with
      | some t => Except.ok t
      | none => Except.error GoErr.typeError) = .ok t
    unfold parseInLocationRFC3339UTC
    rw [h2]
  · intro t
    exact ⟨_, rfl⟩

/-- Witness for C6 (amended): a timestamp with offset `+02:00` decodes to
the instant two hours behind its wall-clock reading, keeping the
non-zero offset, and a concrete encode ends in `Z`. -/
theorem C6_amended_decode_any_offset_witness :
    UTCDate.UnmarshalJSON ("\"2020-05-06T07:08:09+02:00\"".toList) =
      .ok ⟨1588741689, 7200⟩ ∧
    ∃ p, UTCDate.MarshalText ⟨1588741689, 7200⟩ = p ++ ['Z'] := by
  constructor
  · exact C6_amended_decode_any_offset.1 ("\"2020-05-06T07:08:09+02:00\"".toList)
      ("2020-05-06T07:08:09+02:00".toList) ⟨1588741689, 7200⟩ rfl rfl
  · exact C6_amended_decode_any_offset.2 ⟨1588741689, 7200⟩

/-- C8 (amended): `GetJSON` rejects a path with the invalid-pointer-syntax
error exactly when the path contains no `/` at all: the validating
regexp is unanchored, so any path containing a `/` has a matching
substring and is traversed via the matched segments instead of being
rejected, even when the path as a whole does not conform to the
pointer grammar. -/
theorem C8_amended_unanchored_grammar_check :
    ∀ (path : List Char) (v : GoValue),
      GetJSON path v = .error .invalidPointer ↔ '/' ∉ path := by
  intro path v
  unfold GetJSON
  by_cases h : segScan path = []
  · rw [if_pos h]
    simp only [true_iff]
    exact (segScanAux_nil_iff path.length path (le_refl _)).mp h
  · rw [if_neg h]
    constructor
    · intro hres
      exact absurd hres (goResolve_ne_invalid _ _)
    · intro hnot
      exact absurd ((segScanAux_nil_iff path.length path (le_refl _)).mpr hnot) h

/-- Witness for C8 (amended): a slash-less path is rejected. -/
theorem C8_amended_unanchored_grammar_check_witness :
    GetJSON ("nojson".toList) (GoValue.int 5) = .error .invalidPointer :=
  (C8_amended_unanchored_grammar_check ("nojson".toList) (GoValue.int 5)).mpr (by decide)

/-- C9 (amended): resolving a segment against a struct scans the fields in
declaration order, comparing for each exported field the structural name
and then the wire-name; the segment resolves to the first field matching
either, so a field whose wire-name matches wins only when it precedes
every field whose structural name matches. -/
theorem C9_amended_first_match_wins :
    ∀ (fields : List (List Char × List Char × GoValue)) (key : List Char),
      structGet fields key =
        (fields.find? (fun f =>
          (match f.1 with
           | [] => false
           | c :: _ => isUpperCh c) &&
          (f.1 == key || (f.2.1 ≠ [] && tagHead f.2.1 == key)))).map
          (fun f => f.2.2) := by
  intro fields key
  induction fields with
  | nil => rfl
  | cons f rest ih =>
    obtain ⟨name, tag, value⟩ := f
    rw [List.find?_cons]
    cases name with
    | nil =>
      simp only [structGet]
      simpa using ih
    | cons c nt =>
      cases hup : isUpperCh c with
      | false =>
        simp only [structGet, hup]
        simpa using ih
      | true =>
        cases hk : ((c :: nt : List Char) == key) with
        | true =>
          simp only [structGet, hup, hk]
          simp
        | false =>
          cases ht : (decide (tag ≠ []) && (tagHead tag == key)) with
          | true =>
            simp only [structGet, hup, hk, ht]
            simp
          | false =>
            simp only [structGet, hup, hk, ht]
            simpa using ih

/-- Witness for C9 (amended) at the counterexample struct. -/
theorem C9_amended_first_match_wins_witness :
    structGet [("B".toList, "c".toList, GoValue.int 0), ("A".toList, "B".toList, GoValue.int 1)]
      ("B".toList) = some (GoValue.int 0) := by
  rw [C9_amended_first_match_wins]
  rfl

end Jmap
